import Mathlib

/-!
Verification of `scripts/build_combined_csv.py`, a tool that merges
per-section localization CSV files back into one combined CSV, using a
reference combined file to recover the column order and section order.

The embedding works at the level of parsed CSV rows: a CSV file is a
list of rows, a row a list of cell strings; a dict-parsed row (from
`csv.DictReader`) is an association list from column name to value; a
source directory is an association list from file name to its parsed
rows.  Python string operations are modelled on the character list of
the Lean string so that everything evaluates.  The single place where
the Python code can raise an `IndexError` (`marker_row[0] = ...` on an
empty row) is modelled by `Option`: `none` is the raised exception.
-/

set_option autoImplicit false

/-- Python `str.strip()`: remove surrounding whitespace characters. -/
def pyStrip (s : String) : String :=
  String.mk (((s.data.dropWhile Char.isWhitespace).reverse.dropWhile Char.isWhitespace).reverse)

/-- Python `str.startswith(p)`. -/
def pyStartsWith (s p : String) : Bool :=
  List.isPrefixOf p.data s.data

/-- Python `str.endswith(p)`. -/
def pyEndsWith (s p : String) : Bool :=
  List.isSuffixOf p.data s.data

/-- Python slice `s[n:]`, counted in code points. -/
def pyDrop (s : String) (n : Nat) : String :=
  String.mk (s.data.drop n)

/-- `normalize_header` from the source: strip leading BOM characters
(Python `(field or "").lstrip("﻿")`). -/
def normalize_header (field : String) : String :=
  String.mk (field.data.dropWhile (fun c => c == '﻿'))

/-- `LANGUAGE_KEYS` from the source (a set; only membership is used). -/
def LANGUAGE_KEYS : List String :=
  ["CURRENT_LANGUAGE_NAME", "CURRENT_LANGUAGE_SHIPPABLE"]

/-- The marker test inside `parse_reference_combined` (lines 24-30 of the
source): on a non-empty row, trim the first cell; if it starts with the
section marker `//` (length 2) and ends with `.csv`, the section file
name is the trimmed remainder after the marker. -/
def extractMarker (row : List String) : Option String :=
  match row with
  | [] => none
  | c0 :: _ =>
    let first := pyStrip c0
    if pyStartsWith first "//" && pyEndsWith first ".csv" then
      some (pyStrip (pyDrop first 2))
    else none

/-- `parse_reference_combined`: the reference file as a list of parsed CSV
rows.  Empty file or zero extracted markers abort (the `SystemExit`
calls become `Except.error`); otherwise the normalized header and the
encountered section names are returned. -/
def parse_reference_combined (file : List (List String)) :
    Except String (List String × List String) :=
  match file with
  | [] => Except.error "参考 combined 为空"
  | raw_header :: rest =>
    let header := raw_header.map normalize_header
    let order := rest.filterMap extractMarker
    if order = [] then Except.error "未能从参考 combined 中提取任何分段顺序"
    else Except.ok (header, order)

/-- A dict-parsed CSV row: association list column name to value. -/
abbrev Row := List (String × String)

/-- A source directory: file name to parsed rows (the result of
`read_csv_rows` on that file), `none` when `os.path.isfile` is false. -/
abbrev SourceDir := List (String × List Row)

/-- `to_output_row`: project a source row onto the output columns,
missing columns become the empty string. -/
def to_output_row (source_row : Row) (output_columns : List String) : List String :=
  output_columns.map (fun col => (List.lookup col source_row).getD "")

/-- `os.path.isfile(os.path.join(text_dir, name))`. -/
def isfile (dir : SourceDir) (name : String) : Bool :=
  (List.lookup name dir).isSome

/-- The data rows `read_csv_rows` yields for a file of the directory. -/
def readRows (dir : SourceDir) (name : String) : List Row :=
  (List.lookup name dir).getD []

/-- `(row.get("KEY") or "").strip()` from the source. -/
def rowKey (row : Row) : String :=
  pyStrip ((List.lookup "KEY" row).getD "")

/-- `[""] * len(output_columns)`. -/
def blankRow (n : Nat) : List String :=
  List.replicate n ""

/-- Python `row[0] = v`: `none` models the `IndexError` on an empty list. -/
def setFirst (row : List String) (v : String) : Option (List String) :=
  match row with
  | [] => none
  | _ :: rest => some (v :: rest)

/-- Warning text for a missing section file (source line 93). -/
def missingWarning (file_name : String) : String :=
  "缺少文件，已保留空分段: " ++ file_name

/-- Warning text when no language rows were found (source line 79). -/
def noLanguageWarning : String :=
  "未在 additions.csv 中找到 CURRENT_LANGUAGE_* 行，combined 顶部语言行将缺失"

/-- The data rows one section contributes (source lines 95-100): every
row of the file, skipping rows with a recognized language key when the
section is `additions.csv`, each projected onto the output columns.
For a missing file `readRows` is empty, so this is empty as well. -/
def sectionDataRows (dir : SourceDir) (cols : List String) (file_name : String) :
    List (List String) :=
  (readRows dir file_name).filterMap (fun row =>
    if (file_name == "additions.csv") && LANGUAGE_KEYS.contains (rowKey row) then none
    else some (to_output_row row cols))

/-- The language rows placed at the top (source lines 68-76): rows of
`additions.csv` whose trimmed `KEY` is a recognized language key, in
file order, projected onto the output columns. -/
def languageRows (dir : SourceDir) (cols : List String) : List (List String) :=
  if isfile dir "additions.csv" then
    (readRows dir "additions.csv").filterMap (fun row =>
      if LANGUAGE_KEYS.contains (rowKey row) then some (to_output_row row cols) else none)
  else []

/-- The per-section loop of `build_combined_rows` (source lines 84-104):
marker row, then the section data rows (or a warning when the file is
missing), then a blank separator before every following section. -/
def processSections (dir : SourceDir) (cols : List String) :
    List String → Option (List (List String) × List String)
  | [] => some ([], [])
  | file_name :: rest =>
    match setFirst (blankRow cols.length) ("// " ++ file_name) with
    | none => none
    | some marker_row =>
      let data_rows := if isfile dir file_name then sectionDataRows dir cols file_name else []
      let new_warnings := if isfile dir file_name then [] else [missingWarning file_name]
      match processSections dir cols rest with
      | none => none
      | some (rest_rows, rest_warnings) =>
        some (marker_row :: (data_rows ++ (if rest.isEmpty then [] else [blankRow cols.length]) ++ rest_rows),
          new_warnings ++ rest_warnings)

/-- `build_combined_rows`: language rows first, the warning when none
were found, one blank row, then the sections.  `none` models the
`IndexError` raised when the output column list is empty and a marker
row is assigned. -/
def build_combined_rows (dir : SourceDir) (cols : List String) (section_order : List String) :
    Option (List (List String) × List String) :=
  let lang := languageRows dir cols
  let warnings0 := if lang.length = 0 then [noLanguageWarning] else []
  match processSections dir cols section_order with
  | none => none
  | some (sec_rows, sec_warnings) =>
    some (lang ++ blankRow cols.length :: sec_rows, warnings0 ++ sec_warnings)

/-- `write_combined` at row level: the serialized file is the header row
followed by the assembled rows. -/
def write_combined (output_columns : List String) (rows : List (List String)) :
    List (List String) :=
  output_columns :: rows

/-- The straight-line pipeline of `main` on its file inputs: parse the
reference, assemble the rows, serialize.  The `IndexError` case keeps
determinism but surfaces as an error. -/
def run_tool (reference : List (List String)) (dir : SourceDir) :
    Except String (List (List String)) :=
  match parse_reference_combined reference with
  | Except.error e => Except.error e
  | Except.ok (cols, order) =>
    match build_combined_rows dir cols order with
    | none => Except.error "IndexError: list assignment index out of range"
    | some (rows, _) => Except.ok (write_combined cols rows)

/-! ## Specification-side descriptions of the output shape -/

/-- A marker row as the spec describes it: first cell the marker text,
every other cell empty. -/
def markerRowOf (cols : List String) (file_name : String) : List String :=
  ("// " ++ file_name) :: List.replicate (cols.length - 1) ""

/-- The section block layout the spec describes: for each section its
marker row then its data rows, with one blank separator row after every
section except the last. -/
def sectionsShape (dir : SourceDir) (cols : List String) :
    List String → List (List String)
  | [] => []
  | file_name :: rest =>
    (markerRowOf cols file_name :: sectionDataRows dir cols file_name) ++
      (if rest.isEmpty then [] else [blankRow cols.length]) ++ sectionsShape dir cols rest

/-- The warnings the section loop accumulates: one per missing file, in
section order. -/
def sectionWarnings (dir : SourceDir) : List String → List String
  | [] => []
  | file_name :: rest =>
    (if isfile dir file_name then [] else [missingWarning file_name]) ++ sectionWarnings dir rest

/-- The marker test as the specification words it: a row qualifies as a
section marker iff its first cell, trimmed of surrounding whitespace,
starts with `//` and ends with `.csv`; the name is obtained by
stripping the `//` marker and trimming whitespace. -/
def specMarkerName (row : List String) : Option String :=
  match row with
  | [] => none
  | first :: _ =>
    if pyStartsWith (pyStrip first) "//" && pyEndsWith (pyStrip first) ".csv" then
      some (pyStrip (pyDrop (pyStrip first) "//".length))
    else none

/-! ## The round-trip model (C2)

The spec describes a round trip: a combined file is split into
per-section source files, and merging them with the original file as
reference must reproduce it.  The splitting tool is not part of the
source tree, so it is modelled from the spec below.  A structurally
valid combined file is described by `Combined`: the header columns, the
top language rows, and the ordered sections, each a file name with its
data rows.  `renderCombined` lays it out exactly as the spec describes
the combined file format. -/

structure Combined where
  cols : List String
  topCells : List (List String)
  sections : List (String × List (List String))

/-- The row layout of a combined file below the header: the language
rows, one blank row, then each section as marker row plus data rows,
with one blank separator between sections. -/
def renderSections (cols : List String) :
    List (String × List (List String)) → List (List String)
  | [] => []
  | sec :: rest =>
    (markerRowOf cols sec.1 :: sec.2) ++
      (if rest.isEmpty then [] else [blankRow cols.length]) ++ renderSections cols rest

def renderCombined (c : Combined) : List (List String) :=
  c.cols :: (c.topCells ++ blankRow c.cols.length :: renderSections c.cols c.sections)

/-- Modelled from the spec: header-driven CSV reading turns a data row
into a mapping from column name to cell value. -/
def toRowDict (cols : List String) (cells : List String) : Row :=
  List.zip cols cells

/-- Modelled from the spec: the splitting of a combined file into
per-section source files, which is not part of the source tree.  Every
section becomes a source file under its own name holding its data rows;
the top language rows are placed at the head of `additions.csv` (the
designated language-row file), before the own rows of that section. -/
def splitDir (c : Combined) : SourceDir :=
  ("additions.csv",
      c.topCells.map (toRowDict c.cols) ++
        ((List.lookup "additions.csv" c.sections).getD []).map (toRowDict c.cols)) ::
    (c.sections.filter (fun p => !(p.1 == "additions.csv"))).map
      (fun p => (p.1, p.2.map (toRowDict c.cols)))

/-! ## Concrete example data (the example of section 8 of the spec) -/

def exCols : List String := ["KEY", "EN", "ZH"]

def exAdditionsRows : List Row :=
  [[("KEY", "CURRENT_LANGUAGE_NAME"), ("EN", "English"), ("ZH", "中文")],
   [("KEY", "foo"), ("EN", "Foo"), ("ZH", "福")]]

def exItemsRows : List Row :=
  [[("KEY", "bar"), ("EN", "Bar"), ("ZH", "棒")]]

def exDir : SourceDir :=
  [("additions.csv", exAdditionsRows), ("items.csv", exItemsRows)]

def exSecs : List String := ["items.csv", "additions.csv"]

def exRef : List (List String) :=
  [["KEY", "EN", "ZH"], ["// items.csv", "", ""], ["bar", "Bar", "棒"]]

def exCombined : Combined :=
  { cols := ["KEY", "EN", "ZH"],
    topCells := [["CURRENT_LANGUAGE_NAME", "English", "中文"]],
    sections := [("items.csv", [["bar", "Bar", "棒"]]),
                 ("additions.csv", [["foo", "Foo", "福"]])] }

/-! ## Helper lemmas -/

theorem lookup_eq_none_of_not_isfile (dir : SourceDir) (name : String)
    (h : isfile dir name = false) : List.lookup name dir = none := by
  unfold isfile at h
  cases hl : List.lookup name dir with
  | none => rfl
  | some rs => rw [hl] at h; simp at h

theorem sectionDataRows_missing (dir : SourceDir) (cols : List String) (name : String)
    (h : isfile dir name = false) : sectionDataRows dir cols name = [] := by
  unfold sectionDataRows readRows
  rw [lookup_eq_none_of_not_isfile dir name h]
  rfl

theorem setFirst_blankRow (n : Nat) (h : n ≠ 0) (v : String) :
    setFirst (blankRow n) v = some (v :: List.replicate (n - 1) "") := by
  cases n with
  | zero => exact absurd rfl h
  | succ m => simp [setFirst, blankRow, List.replicate_succ]

theorem processSections_eq (dir : SourceDir) (cols : List String) (h : cols ≠ [])
    (secs : List String) :
    processSections dir cols secs =
      some (sectionsShape dir cols secs, sectionWarnings dir secs) := by
  have hn : cols.length ≠ 0 := fun e => h (List.length_eq_zero.mp e)
  induction secs with
  | nil => rfl
  | cons name rest ih =>
    rw [processSections, setFirst_blankRow cols.length hn, ih]
    by_cases hf : isfile dir name
    · simp [sectionsShape, sectionWarnings, markerRowOf, hf]
    · simp [sectionsShape, sectionWarnings, markerRowOf, hf,
        sectionDataRows_missing dir cols name (by simpa using hf)]

theorem build_combined_rows_eq (dir : SourceDir) (cols : List String) (secs : List String)
    (h : cols ≠ []) :
    build_combined_rows dir cols secs =
      some (languageRows dir cols ++ blankRow cols.length :: sectionsShape dir cols secs,
        (if (languageRows dir cols).length = 0 then [noLanguageWarning] else []) ++
          sectionWarnings dir secs) := by
  unfold build_combined_rows
  rw [processSections_eq dir cols h secs]

/-- Claim C1: for every source directory, non-empty output column list and
non-empty section order, the result of `build_combined_rows` is exactly the
projected language rows from `additions.csv`, then one blank row, then the
section blocks: for every section a marker row (first cell the marker text,
other cells empty) followed by the projected data rows of that section, with
one blank separator after every section except the last. -/
theorem C1_build_combined_rows_shape (dir : SourceDir) (cols : List String)
    (secs : List String) (hcols : cols ≠ []) (_hsecs : secs ≠ []) :
    ∃ warns, build_combined_rows dir cols secs =
      some (languageRows dir cols ++ blankRow cols.length :: sectionsShape dir cols secs,
        warns) :=
  ⟨_, build_combined_rows_eq dir cols secs hcols⟩

/-- Witness for C1 on the example of section 8 of the spec. -/
theorem C1_build_combined_rows_shape_witness :
    ∃ warns, build_combined_rows exDir exCols exSecs =
      some (languageRows exDir exCols ++
        blankRow exCols.length :: sectionsShape exDir exCols exSecs, warns) :=
  C1_build_combined_rows_shape exDir exCols exSecs (by decide) (by decide)

/-- Claim C10: under the precondition that the output column list is
non-empty, `build_combined_rows` is total: the assignment of the marker text
into the first cell of each marker row is in bounds, so the function never
raises an index error. -/
theorem C10_no_index_error (dir : SourceDir) (cols : List String) (secs : List String)
    (h : cols ≠ []) : (build_combined_rows dir cols secs).isSome = true := by
  rw [build_combined_rows_eq dir cols secs h]
  rfl

/-- Witness for C10. -/
theorem C10_no_index_error_witness :
    (build_combined_rows exDir exCols exSecs).isSome = true :=
  C10_no_index_error exDir exCols exSecs (by decide)

/-! ## Row lengths -/

theorem length_to_output_row (row : Row) (cols : List String) :
    (to_output_row row cols).length = cols.length := by
  simp [to_output_row]

theorem mem_sectionDataRows_length (dir : SourceDir) (cols : List String) (name : String)
    (r : List String) (hr : r ∈ sectionDataRows dir cols name) :
    r.length = cols.length := by
  rcases List.mem_filterMap.mp hr with ⟨row, _, hrow⟩
  split at hrow
  · exact absurd hrow (by simp)
  · rw [Option.some.injEq] at hrow
    rw [← hrow]
    exact length_to_output_row row cols

theorem mem_languageRows_length (dir : SourceDir) (cols : List String)
    (r : List String) (hr : r ∈ languageRows dir cols) :
    r.length = cols.length := by
  unfold languageRows at hr
  split at hr
  · rcases List.mem_filterMap.mp hr with ⟨row, _, hrow⟩
    split at hrow
    · rw [Option.some.injEq] at hrow
      rw [← hrow]
      exact length_to_output_row row cols
    · exact absurd hrow (by simp)
  · exact absurd hr (by simp)

theorem mem_sectionsShape_length (dir : SourceDir) (cols : List String) (hc : cols ≠ [])
    (secs : List String) (r : List String) (hr : r ∈ sectionsShape dir cols secs) :
    r.length = cols.length := by
  have hn : cols.length ≠ 0 := fun e => hc (List.length_eq_zero.mp e)
  induction secs with
  | nil => exact absurd hr (by simp [sectionsShape])
  | cons name rest ih =>
    simp only [sectionsShape, List.append_assoc, List.mem_append, List.mem_cons] at hr
    rcases hr with (rfl | hdata) | hsep | hrest
    · simp only [markerRowOf, List.length_cons, List.length_replicate]
      omega
    · exact mem_sectionDataRows_length dir cols name r hdata
    · split at hsep
      · exact absurd hsep (by simp)
      · rcases List.mem_singleton.mp hsep with rfl
        simp [blankRow]
    · exact ih hrest

/-- Claim C9: every row returned by `build_combined_rows` (language row,
blank row, marker row, data row or separator) has exactly as many cells as
the output column list has columns. -/
theorem C9_row_lengths (dir : SourceDir) (cols : List String) (secs : List String)
    (rows : List (List String)) (warns : List String)
    (h : build_combined_rows dir cols secs = some (rows, warns)) :
    ∀ r ∈ rows, r.length = cols.length := by
  by_cases hc : cols = []
  · subst hc
    cases secs with
    | nil =>
      unfold build_combined_rows at h
      simp only [processSections, Option.some.injEq, Prod.mk.injEq] at h
      obtain ⟨hrows, -⟩ := h
      subst hrows
      intro r hr
      rcases List.mem_append.mp hr with hlang | hone
      · exact mem_languageRows_length dir [] r hlang
      · rcases List.mem_cons.mp hone with rfl | hnil
        · rfl
        · exact absurd hnil (by simp)
    | cons n rest =>
      exfalso
      unfold build_combined_rows processSections at h
      simp [blankRow, setFirst] at h
  · rw [build_combined_rows_eq dir cols secs hc, Option.some.injEq, Prod.mk.injEq] at h
    obtain ⟨hrows, -⟩ := h
    subst hrows
    intro r hr
    rcases List.mem_append.mp hr with hlang | hrest
    · exact mem_languageRows_length dir cols r hlang
    · rcases List.mem_cons.mp hrest with rfl | hshape
      · simp [blankRow]
      · exact mem_sectionsShape_length dir cols hc secs r hshape

/-- Witness for C9 on the example data: the marker row of the first
section of the assembled output has as many cells as the column list. -/
theorem C9_row_lengths_witness :
    (["// items.csv", "", ""] : List String).length = exCols.length :=
  C9_row_lengths exDir exCols exSecs
    [["CURRENT_LANGUAGE_NAME", "English", "中文"], ["", "", ""],
      ["// items.csv", "", ""], ["bar", "Bar", "棒"], ["", "", ""],
      ["// additions.csv", "", ""], ["foo", "Foo", "福"]] [] (by decide)
    ["// items.csv", "", ""] (by decide)

/-! ## Missing section files (C7) -/

theorem mem_sectionWarnings (dir : SourceDir) (secs : List String) (name : String)
    (hn : name ∈ secs) (hm : isfile dir name = false) :
    missingWarning name ∈ sectionWarnings dir secs := by
  induction secs with
  | nil => cases hn
  | cons a rest ih =>
    rcases List.mem_cons.mp hn with rfl | h
    · simp [sectionWarnings, hm]
    · simp only [sectionWarnings]
      exact List.mem_append.mpr (Or.inr (ih h))

theorem mem_marker_sectionsShape (dir : SourceDir) (cols : List String) (secs : List String)
    (name : String) (hn : name ∈ secs) :
    markerRowOf cols name ∈ sectionsShape dir cols secs := by
  induction secs with
  | nil => cases hn
  | cons a rest ih =>
    rcases List.mem_cons.mp hn with rfl | h
    · simp [sectionsShape]
    · simp only [sectionsShape]
      exact List.mem_append.mpr (Or.inr (ih h))

/-- Claim C7: for every section file name missing from the source directory,
`build_combined_rows` does not raise: the marker row of that section is still
present, the section contributes zero data rows, and the returned warning
list contains a warning mentioning the missing file name. -/
theorem C7_missing_file (dir : SourceDir) (cols : List String) (secs : List String)
    (name : String) (hc : cols ≠ []) (hn : name ∈ secs) (hm : isfile dir name = false) :
    ∃ rows warns, build_combined_rows dir cols secs = some (rows, warns) ∧
      missingWarning name ∈ warns ∧ markerRowOf cols name ∈ rows ∧
      sectionDataRows dir cols name = [] := by
  refine ⟨_, _, build_combined_rows_eq dir cols secs hc, ?_, ?_,
    sectionDataRows_missing dir cols name hm⟩
  · exact List.mem_append.mpr (Or.inr (mem_sectionWarnings dir secs name hn hm))
  · exact List.mem_append.mpr (Or.inr (List.mem_cons.mpr
      (Or.inr (mem_marker_sectionsShape dir cols secs name hn))))

/-- Witness for C7: the file `weapons.csv` is missing from the example
directory. -/
theorem C7_missing_file_witness :
    ∃ rows warns,
      build_combined_rows exDir exCols ["items.csv", "weapons.csv"] = some (rows, warns) ∧
      missingWarning "weapons.csv" ∈ warns ∧
      markerRowOf exCols "weapons.csv" ∈ rows ∧
      sectionDataRows exDir exCols "weapons.csv" = [] :=
  C7_missing_file exDir exCols ["items.csv", "weapons.csv"] "weapons.csv"
    (by decide) (by decide) (by decide)

/-! ## Language-row extraction and skipping (C5) -/

theorem filterMap_guard {α β : Type} (p : α → Bool) (f : α → β) (l : List α) :
    l.filterMap (fun a => if p a then some (f a) else none) = (l.filter p).map f := by
  induction l with
  | nil => rfl
  | cons a t ih => by_cases h : p a <;> simp [h, ih]

theorem filterMap_guard_neg {α β : Type} (p : α → Bool) (f : α → β) (l : List α) :
    l.filterMap (fun a => if p a then none else some (f a)) =
      (l.filter (fun a => !p a)).map f := by
  induction l with
  | nil => rfl
  | cons a t ih => by_cases h : p a <;> simp [h, ih]

theorem filterMap_some_map {α β : Type} (f : α → β) (l : List α) :
    l.filterMap (fun a => some (f a)) = l.map f := by
  induction l with
  | nil => rfl
  | cons a t ih => simp [ih]

/-- Claim C5: every row of `additions.csv` whose `KEY` is a recognized
language key is emitted at the top (in file order), such rows are skipped
during the iteration over the `additions.csv` section, and rows with the
same language keys in any other section file are not skipped. -/
theorem C5_language_rows (dir : SourceDir) (cols : List String) (secs : List String)
    (arows : List Row) (hc : cols ≠ [])
    (ha : List.lookup "additions.csv" dir = some arows) :
    languageRows dir cols =
      (arows.filter (fun r => LANGUAGE_KEYS.contains (rowKey r))).map
        (fun r => to_output_row r cols) ∧
    sectionDataRows dir cols "additions.csv" =
      (arows.filter (fun r => !LANGUAGE_KEYS.contains (rowKey r))).map
        (fun r => to_output_row r cols) ∧
    (∀ name rs, name ≠ "additions.csv" → List.lookup name dir = some rs →
      sectionDataRows dir cols name = rs.map (fun r => to_output_row r cols)) ∧
    ∃ warns, build_combined_rows dir cols secs =
      some (languageRows dir cols ++ blankRow cols.length :: sectionsShape dir cols secs,
        warns) := by
  refine ⟨?_, ?_, ?_, ⟨_, build_combined_rows_eq dir cols secs hc⟩⟩
  · unfold languageRows readRows isfile
    rw [ha]
    simp only [Option.isSome_some, if_pos, Option.getD_some]
    exact filterMap_guard (fun r => LANGUAGE_KEYS.contains (rowKey r))
      (fun r => to_output_row r cols) arows
  · unfold sectionDataRows readRows
    rw [ha]
    simp only [Option.getD_some, beq_self_eq_true, Bool.true_and]
    exact filterMap_guard_neg (fun r => LANGUAGE_KEYS.contains (rowKey r))
      (fun r => to_output_row r cols) arows
  · intro name rs hne hrs
    unfold sectionDataRows readRows
    rw [hrs]
    simp only [Option.getD_some, beq_false_of_ne hne, Bool.false_and, Bool.false_eq_true,
      if_false]
    exact filterMap_some_map (fun r => to_output_row r cols) rs

/-- Witness for C5 on the example data. -/
theorem C5_language_rows_witness :
    languageRows exDir exCols =
      (exAdditionsRows.filter (fun r => LANGUAGE_KEYS.contains (rowKey r))).map
        (fun r => to_output_row r exCols) ∧
    sectionDataRows exDir exCols "additions.csv" =
      (exAdditionsRows.filter (fun r => !LANGUAGE_KEYS.contains (rowKey r))).map
        (fun r => to_output_row r exCols) ∧
    (∀ name rs, name ≠ "additions.csv" → List.lookup name exDir = some rs →
      sectionDataRows exDir exCols name = rs.map (fun r => to_output_row r exCols)) ∧
    ∃ warns, build_combined_rows exDir exCols exSecs =
      some (languageRows exDir exCols ++
        blankRow exCols.length :: sectionsShape exDir exCols exSecs, warns) :=
  C5_language_rows exDir exCols exSecs exAdditionsRows (by decide) (by decide)

/-! ## Reference parsing (C3, C6) -/

theorem specMarkerName_eq_extractMarker : specMarkerName = extractMarker := by
  funext row
  cases row <;> rfl

/-- Claim C3: for every reference file with at least one section marker,
`parse_reference_combined` returns a column list with the length of the
reference header row, and the section list holding exactly the names
extracted from marker rows (first cell trimmed, starting with `//`, ending
in `.csv`, the name the trimmed remainder), in encounter order, duplicates
preserved. -/
theorem C3_parse_reference (raw_header : List String) (rest : List (List String))
    (h : rest.filterMap specMarkerName ≠ []) :
    parse_reference_combined (raw_header :: rest) =
      Except.ok (raw_header.map normalize_header, rest.filterMap specMarkerName) ∧
    (raw_header.map normalize_header).length = raw_header.length := by
  have h' : rest.filterMap extractMarker ≠ [] := by
    rw [← specMarkerName_eq_extractMarker]; exact h
  constructor
  · simp only [parse_reference_combined, specMarkerName_eq_extractMarker]
    rw [if_neg h']
  · exact List.length_map raw_header normalize_header

/-- Witness for C3: a reference with a duplicated marker, surrounding
whitespace and a BOM on the header. -/
theorem C3_parse_reference_witness :
    parse_reference_combined (["﻿KEY", "EN"] ::
      [[" // items.csv ", ""], ["bar", "Bar"], ["// items.csv", ""]]) =
      Except.ok (["﻿KEY", "EN"].map normalize_header,
        [[" // items.csv ", ""], ["bar", "Bar"], ["// items.csv", ""]].filterMap
          specMarkerName) ∧
    ((["﻿KEY", "EN"]).map normalize_header).length = (["﻿KEY", "EN"] : List String).length :=
  C3_parse_reference ["﻿KEY", "EN"]
    [[" // items.csv ", ""], ["bar", "Bar"], ["// items.csv", ""]] (by decide)

/-- Claim C6: `parse_reference_combined` aborts if and only if the reference
file has no rows at all or yields zero section markers; with a header row
and at least one marker row it returns normally. -/
theorem C6_parse_abort_iff (file : List (List String)) :
    (∃ r, parse_reference_combined file = Except.ok r) ↔
      (file ≠ [] ∧ file.tail.filterMap extractMarker ≠ []) := by
  cases file with
  | nil => simp [parse_reference_combined]
  | cons hd tl =>
    simp only [parse_reference_combined, List.tail_cons, ne_eq]
    by_cases h : tl.filterMap extractMarker = []
    · simp [h]
    · simp [h]

/-- Witness for C6 at a concrete reference file with one marker. -/
theorem C6_parse_abort_iff_witness :
    (∃ r, parse_reference_combined exRef = Except.ok r) ↔
      (exRef ≠ [] ∧ exRef.tail.filterMap extractMarker ≠ []) :=
  C6_parse_abort_iff exRef

/-! ## Row projection (C4) -/

theorem lookup_cons_ne {β : Type} (k : String) (v : β) (t : List (String × β))
    (col : String) (h : ¬ col = k) :
    List.lookup col ((k, v) :: t) = List.lookup col t := by
  simp [List.lookup_cons, beq_false_of_ne h]

theorem lookup_filter_mem (row : Row) (cols : List String) (col : String)
    (hcol : col ∈ cols) :
    List.lookup col (row.filter (fun p => cols.contains p.1)) = List.lookup col row := by
  induction row with
  | nil => rfl
  | cons p t ih =>
    obtain ⟨k, v⟩ := p
    by_cases hp : cols.contains k
    · rw [List.filter_cons_of_pos (by simpa using hp)]
      by_cases hk : col == k
      · simp [List.lookup_cons, hk]
      · simp only [List.lookup_cons, hk]
        exact ih
    · have hne : (col == k) = false := by
        apply beq_false_of_ne
        intro e
        subst e
        exact hp (List.elem_iff.mpr hcol)
      rw [List.filter_cons_of_neg (by simpa using hp), lookup_cons_ne k v t col
        (by simpa using hne)]
      exact ih

/-- Claim C4: the projected output row assigns each output column the value
of the source row when present and the empty string otherwise, and consults
no source column outside the output column list (extra source columns are
dropped). -/
theorem C4_to_output_row (row : Row) (cols : List String) :
    (∀ i : Nat, (to_output_row row cols)[i]? =
      (cols[i]?).map (fun col => (List.lookup col row).getD "")) ∧
    to_output_row row cols = to_output_row (row.filter (fun p => cols.contains p.1)) cols := by
  constructor
  · intro i
    simp [to_output_row, List.getElem?_map]
  · unfold to_output_row
    refine List.map_eq_map_iff.mpr (fun col hcol => ?_)
    rw [lookup_filter_mem row cols col hcol]

/-! ## Determinism (C8) -/

/-- Claim C8: the pipeline is a deterministic function of its file inputs:
two runs on identical reference file contents and identical source
directory contents produce identical output files. -/
theorem C8_deterministic (ref1 ref2 : List (List String)) (dir1 dir2 : SourceDir)
    (h1 : ref1 = ref2) (h2 : dir1 = dir2) :
    run_tool ref1 dir1 = run_tool ref2 dir2 := by
  subst h1
  subst h2
  rfl

/-- Witness for C8 at concrete inputs. -/
theorem C8_deterministic_witness :
    run_tool exRef exDir = run_tool exRef exDir :=
  C8_deterministic exRef exRef exDir exDir rfl rfl

/-! ## Round trip (C2) -/

theorem to_output_row_toRowDict (cols cells : List String) (hnd : cols.Nodup)
    (hlen : cells.length = cols.length) :
    to_output_row (toRowDict cols cells) cols = cells := by
  induction cols generalizing cells with
  | nil =>
    rw [List.length_eq_zero.mp hlen]
    rfl
  | cons c cs ih =>
    cases cells with
    | nil => simp at hlen
    | cons v vs =>
      obtain ⟨hc, hnd'⟩ := List.nodup_cons.mp hnd
      have hvs : vs.length = cs.length := by simpa using hlen
      simp only [toRowDict, List.zip_cons_cons, to_output_row, List.map_cons]
      congr 1
      · simp [List.lookup_cons]
      · have hrw : cs.map (fun col => (List.lookup col ((c, v) :: List.zip cs vs)).getD "") =
            cs.map (fun col => (List.lookup col (List.zip cs vs)).getD "") :=
          List.map_eq_map_iff.mpr (fun col hcol => by
            rw [lookup_cons_ne c v _ col (fun e => hc (e ▸ hcol))])
        rw [hrw]
        exact ih vs hnd' hvs

theorem extractMarker_blankRow (n : Nat) : extractMarker (blankRow n) = none := by
  cases n with
  | zero => rfl
  | succ m => rfl

theorem filterMap_extractMarker_renderSections (cols : List String)
    (secs : List (String × List (List String)))
    (hm : ∀ p ∈ secs, extractMarker (markerRowOf cols p.1) = some p.1)
    (hd : ∀ p ∈ secs, ∀ r ∈ p.2, extractMarker r = none) :
    (renderSections cols secs).filterMap extractMarker = secs.map Prod.fst := by
  induction secs with
  | nil => rfl
  | cons p rest ih =>
    have h2 : p.2.filterMap extractMarker = [] :=
      List.filterMap_eq_nil_iff.mpr (fun r hr => hd p (List.mem_cons_self p rest) r hr)
    have h3 : (if rest.isEmpty then ([] : List (List String))
        else [blankRow cols.length]).filterMap extractMarker = [] := by
      cases rest <;> simp [extractMarker_blankRow]
    simp only [renderSections, List.filterMap_append, List.filterMap_cons,
      hm p (List.mem_cons_self p rest), h2, h3,
      ih (fun q hq => hm q (List.mem_cons_of_mem p hq))
        (fun q hq => hd q (List.mem_cons_of_mem p hq))]
    simp

theorem parse_renderCombined (c : Combined)
    (hheader : c.cols.map normalize_header = c.cols)
    (hsecs : c.sections ≠ [])
    (hm : ∀ p ∈ c.sections, extractMarker (markerRowOf c.cols p.1) = some p.1)
    (htop : ∀ r ∈ c.topCells, extractMarker r = none)
    (hd : ∀ p ∈ c.sections, ∀ r ∈ p.2, extractMarker r = none) :
    parse_reference_combined (renderCombined c) =
      Except.ok (c.cols, c.sections.map Prod.fst) := by
  have h1 : c.topCells.filterMap extractMarker = [] :=
    List.filterMap_eq_nil_iff.mpr htop
  have horder : (c.topCells ++ blankRow c.cols.length ::
      renderSections c.cols c.sections).filterMap extractMarker =
      c.sections.map Prod.fst := by
    rw [List.filterMap_append, h1, List.filterMap_cons, extractMarker_blankRow,
      filterMap_extractMarker_renderSections c.cols c.sections hm hd]
    rfl
  have hne : c.sections.map Prod.fst ≠ [] := fun e => hsecs (List.map_eq_nil_iff.mp e)
  simp only [renderCombined, parse_reference_combined, horder]
  rw [if_neg hne, hheader]

theorem lookup_splitDir_additions (c : Combined) :
    List.lookup "additions.csv" (splitDir c) =
      some (c.topCells.map (toRowDict c.cols) ++
        ((List.lookup "additions.csv" c.sections).getD []).map (toRowDict c.cols)) := by
  simp [splitDir, List.lookup_cons]

theorem lookup_of_mem_nodup {β : Type} (l : List (String × β)) (n : String) (b : β)
    (hnd : (l.map Prod.fst).Nodup) (hmem : (n, b) ∈ l) :
    List.lookup n l = some b := by
  induction l with
  | nil => cases hmem
  | cons q rest ih =>
    rw [List.map_cons] at hnd
    obtain ⟨hq, hnd'⟩ := List.nodup_cons.mp hnd
    rcases List.mem_cons.mp hmem with heq | hmem'
    · rw [← heq]
      simp [List.lookup_cons]
    · obtain ⟨k, v⟩ := q
      have hn : n ∈ rest.map Prod.fst := List.mem_map.mpr ⟨(n, b), hmem', rfl⟩
      rw [lookup_cons_ne k v rest n (fun e => hq (e ▸ hn))]
      exact ih hnd' hmem'

theorem lookup_splitDir_other (c : Combined) (n : String) (rs : List (List String))
    (hn : n ≠ "additions.csv")
    (hnd : (c.sections.map Prod.fst).Nodup)
    (hmem : (n, rs) ∈ c.sections) :
    List.lookup n (splitDir c) = some (rs.map (toRowDict c.cols)) := by
  unfold splitDir
  rw [lookup_cons_ne _ _ _ n hn]
  apply lookup_of_mem_nodup
  · have hfst : ((c.sections.filter (fun p => !(p.1 == "additions.csv"))).map
        (fun p => (p.1, p.2.map (toRowDict c.cols)))).map Prod.fst =
        (c.sections.filter (fun p => !(p.1 == "additions.csv"))).map Prod.fst := by
      simp [List.map_map]
    rw [hfst]
    exact List.Nodup.sublist (List.Sublist.map Prod.fst (List.filter_sublist c.sections)) hnd
  · exact List.mem_map.mpr ⟨(n, rs),
      List.mem_filter.mpr ⟨hmem, by simp [beq_false_of_ne hn]⟩, rfl⟩

theorem filterMap_eq_self {α : Type} (l : List α) (f : α → Option α)
    (h : ∀ a ∈ l, f a = some a) : l.filterMap f = l := by
  induction l with
  | nil => rfl
  | cons a t ih =>
    simp [List.filterMap_cons, h a (List.mem_cons_self a t),
      ih (fun b hb => h b (List.mem_cons_of_mem a hb))]

theorem sectionDataRows_splitDir (c : Combined)
    (hnd : c.cols.Nodup)
    (hnames : (c.sections.map Prod.fst).Nodup)
    (hdatalen : ∀ p ∈ c.sections, ∀ r ∈ p.2, r.length = c.cols.length)
    (htoplang : ∀ r ∈ c.topCells,
      LANGUAGE_KEYS.contains (rowKey (toRowDict c.cols r)) = true)
    (haddlang : ∀ r ∈ (List.lookup "additions.csv" c.sections).getD [],
      LANGUAGE_KEYS.contains (rowKey (toRowDict c.cols r)) = false) :
    ∀ p ∈ c.sections, sectionDataRows (splitDir c) c.cols p.1 = p.2 := by
  intro p hp
  obtain ⟨n, rs⟩ := p
  by_cases hadd : n = "additions.csv"
  · subst hadd
    have hlook : List.lookup "additions.csv" c.sections = some rs :=
      lookup_of_mem_nodup c.sections "additions.csv" rs hnames hp
    unfold sectionDataRows readRows
    rw [lookup_splitDir_additions c, hlook]
    simp only [Option.getD_some, List.filterMap_append, beq_self_eq_true, Bool.true_and]
    have h1 : (c.topCells.map (toRowDict c.cols)).filterMap
        (fun row => if LANGUAGE_KEYS.contains (rowKey row) then none
          else some (to_output_row row c.cols)) = [] := by
      apply List.filterMap_eq_nil_iff.mpr
      intro row hrow
      rcases List.mem_map.mp hrow with ⟨cells, hc1, rfl⟩
      rw [htoplang cells hc1]
      simp
    have h2 : (rs.map (toRowDict c.cols)).filterMap
        (fun row => if LANGUAGE_KEYS.contains (rowKey row) then none
          else some (to_output_row row c.cols)) = rs := by
      rw [List.filterMap_map]
      apply filterMap_eq_self
      intro r hr
      have hlang : LANGUAGE_KEYS.contains (rowKey (toRowDict c.cols r)) = false := by
        apply haddlang
        rw [hlook]
        simpa using hr
      simp only [Function.comp_apply, hlang, Bool.false_eq_true, if_false,
        Option.some.injEq]
      exact to_output_row_toRowDict c.cols r hnd
        (hdatalen ("additions.csv", rs) hp r hr)
    rw [h1, h2]
    rfl
  · unfold sectionDataRows readRows
    rw [lookup_splitDir_other c n rs hadd hnames hp]
    simp only [Option.getD_some, beq_false_of_ne hadd, Bool.false_and, Bool.false_eq_true,
      if_false, List.filterMap_map]
    apply filterMap_eq_self
    intro r hr
    simp only [Function.comp_apply, Option.some.injEq]
    exact to_output_row_toRowDict c.cols r hnd (hdatalen (n, rs) hp r hr)

theorem languageRows_splitDir (c : Combined)
    (hnd : c.cols.Nodup)
    (htoplen : ∀ r ∈ c.topCells, r.length = c.cols.length)
    (htoplang : ∀ r ∈ c.topCells,
      LANGUAGE_KEYS.contains (rowKey (toRowDict c.cols r)) = true)
    (haddlang : ∀ r ∈ (List.lookup "additions.csv" c.sections).getD [],
      LANGUAGE_KEYS.contains (rowKey (toRowDict c.cols r)) = false) :
    languageRows (splitDir c) c.cols = c.topCells := by
  unfold languageRows readRows isfile
  rw [lookup_splitDir_additions c]
  simp only [Option.isSome_some, if_pos, Option.getD_some, List.filterMap_append]
  have h1 : (c.topCells.map (toRowDict c.cols)).filterMap
      (fun row => if LANGUAGE_KEYS.contains (rowKey row)
        then some (to_output_row row c.cols) else none) = c.topCells := by
    rw [List.filterMap_map]
    apply filterMap_eq_self
    intro r hr
    simp only [Function.comp_apply, htoplang r hr, if_true, Option.some.injEq]
    exact to_output_row_toRowDict c.cols r hnd (htoplen r hr)
  have h2 : (((List.lookup "additions.csv" c.sections).getD []).map
      (toRowDict c.cols)).filterMap
      (fun row => if LANGUAGE_KEYS.contains (rowKey row)
        then some (to_output_row row c.cols) else none) = [] := by
    apply List.filterMap_eq_nil_iff.mpr
    intro row hrow
    rcases List.mem_map.mp hrow with ⟨cells, hc1, rfl⟩
    rw [haddlang cells hc1]
    simp
  rw [h1, h2, List.append_nil]

theorem isEmpty_map {α β : Type} (f : α → β) (l : List α) :
    (l.map f).isEmpty = l.isEmpty := by
  cases l <;> rfl

theorem sectionsShape_renderSections (dir : SourceDir) (cols : List String)
    (secs : List (String × List (List String)))
    (h : ∀ p ∈ secs, sectionDataRows dir cols p.1 = p.2) :
    sectionsShape dir cols (secs.map Prod.fst) = renderSections cols secs := by
  induction secs with
  | nil => rfl
  | cons p rest ih =>
    simp only [List.map_cons, sectionsShape, renderSections]
    rw [h p (List.mem_cons_self p rest),
      ih (fun q hq => h q (List.mem_cons_of_mem p hq)), isEmpty_map]

/-- Claim C2: round trip.  For every structurally valid combined file
(described by `Combined` together with the well-formedness hypotheses the
combined file format imposes: non-empty and duplicate-free header without
BOM residue, at least one section, distinct section names whose marker rows
round-trip through the marker parser, rows as wide as the header, language
keys exactly on the top rows, and no data row that looks like a marker),
splitting it into per-section source files and merging those with the
original file as the reference reproduces the original file row for row:
parsing the rendered file recovers the columns and the section order, and
the merged output written by `write_combined` equals the original rendered
file. -/
theorem C2_roundtrip (c : Combined)
    (hcols : c.cols ≠ [])
    (hnd : c.cols.Nodup)
    (hheader : c.cols.map normalize_header = c.cols)
    (hsecs : c.sections ≠ [])
    (hnames : (c.sections.map Prod.fst).Nodup)
    (hmark : ∀ p ∈ c.sections, extractMarker (markerRowOf c.cols p.1) = some p.1)
    (htoplen : ∀ r ∈ c.topCells, r.length = c.cols.length)
    (hdatalen : ∀ p ∈ c.sections, ∀ r ∈ p.2, r.length = c.cols.length)
    (htoplang : ∀ r ∈ c.topCells,
      LANGUAGE_KEYS.contains (rowKey (toRowDict c.cols r)) = true)
    (htopmark : ∀ r ∈ c.topCells, extractMarker r = none)
    (hdatamark : ∀ p ∈ c.sections, ∀ r ∈ p.2, extractMarker r = none)
    (haddlang : ∀ r ∈ (List.lookup "additions.csv" c.sections).getD [],
      LANGUAGE_KEYS.contains (rowKey (toRowDict c.cols r)) = false) :
    parse_reference_combined (renderCombined c) =
      Except.ok (c.cols, c.sections.map Prod.fst) ∧
    ∃ rows warns,
      build_combined_rows (splitDir c) c.cols (c.sections.map Prod.fst) =
        some (rows, warns) ∧
      write_combined c.cols rows = renderCombined c := by
  refine ⟨parse_renderCombined c hheader hsecs hmark htopmark hdatamark, ?_⟩
  refine ⟨_, _, build_combined_rows_eq (splitDir c) c.cols (c.sections.map Prod.fst)
    hcols, ?_⟩
  unfold write_combined renderCombined
  rw [languageRows_splitDir c hnd htoplen htoplang haddlang,
    sectionsShape_renderSections (splitDir c) c.cols c.sections
      (sectionDataRows_splitDir c hnd hnames hdatalen htoplang haddlang)]

/-- Witness for C2 at a concrete two-section combined file. -/
theorem C2_roundtrip_witness :
    parse_reference_combined (renderCombined exCombined) =
      Except.ok (exCombined.cols, exCombined.sections.map Prod.fst) ∧
    ∃ rows warns,
      build_combined_rows (splitDir exCombined) exCombined.cols
          (exCombined.sections.map Prod.fst) =
        some (rows, warns) ∧
      write_combined exCombined.cols rows = renderCombined exCombined :=
  C2_roundtrip exCombined (by decide) (by decide) (by decide) (by decide) (by decide)
    (by decide) (by decide) (by decide) (by decide) (by decide) (by decide) (by decide)
